import Mathlib

/-!
# Fiscal numbering service (`numbering/main.go`)

A shallow embedding of the numbering service: the `counters` document it
reads and updates, the three store operations `findCounter`, `findAndIncr`
and `addUsedDocID`, the protocol `readCounterValue` built from them, and the
message handler that calls it.

Modelling conventions.

* The store is the one document of collection `counters` that the service
  addresses; the filters of the store operations (`name`, `_id`) are kept, so
  an operation whose filter does not match finds no document.
* `int64` fields are `Int`; the only arithmetic on them is the store's
  `$inc` of `lastValue`, which the store refuses when the result leaves the
  64-bit range.
* Every error path of `readCounterValue` ends in `log.Fatal*`, which exits the
  process: the function never hands an error back. A call that dies is
  `none`.
-/

namespace Numbering

/-! ## Data model -/

/-- Largest value of Go's `int64`, the type of `Counter.LastValue`. -/
def maxInt64 : Int := 9223372036854775807

/-- Type `UsedCounter`: one entry of `usedValues`, a document id and the value
recorded for it. -/
structure UsedCounter where
  DocID : String
  Value : Int
deriving DecidableEq, Repr

/-- Type `Counter`: the counter document (`_id`, `name`, `docType`, `lastValue`,
`usedValues`). -/
structure Counter where
  ID : Nat
  Name : String
  DocType : String
  LastValue : Int
  UsedValues : List UsedCounter
deriving DecidableEq, Repr

/-! ## Store operations -/

/-- Store operation `findCounter`: `FindOne` with filter `name = name`.
`none` is the error result (`ErrNoDocuments`). -/
def findCounter (name : String) (col : Counter) : Option Counter :=
  if col.Name = name then some col else none

/-- Store operation `findAndIncr`: `FindOneAndUpdate` with filter `_id = id`
and update `$inc lastValue 1`, returning the document after the update. The
result is both the returned document and the new content of the store. `none`
is the error result: no document matches the filter, or `lastValue` is already
the largest 64-bit value (the store rejects an `$inc` whose result overflows
64 bits; it does not wrap around). -/
def findAndIncr (id : Nat) (col : Counter) : Option Counter :=
  if col.ID = id then
    if col.LastValue + 1 ≤ maxInt64 then
      some { col with LastValue := col.LastValue + 1 }
    else none
  else none

/-- Store operation `addUsedDocID`: `FindOneAndUpdate` with filter `_id = id`
and update `$push usedValues (docId, value)`, returning the document after
the update. `$push` appends at the end of the array, whatever the array
holds. `none` is the error result (no document matches the filter). -/
def addUsedDocID (id : Nat) (docID : String) (value : Int) (col : Counter) :
    Option Counter :=
  if col.ID = id then
    some { col with UsedValues := col.UsedValues ++ [{ DocID := docID, Value := value }] }
  else none

/-- The `for _, usedValue := range cnt.UsedValues` loop of `readCounterValue`:
the value of the first entry whose `DocID` is `docID`. -/
def lookupDocID (docID : String) : List UsedCounter → Option Int
  | [] => none
  | usedValue :: rest =>
    if usedValue.DocID = docID then some usedValue.Value else lookupDocID docID rest

/-- Function `readCounterValue` run without interference from other callers:
the value returned and the store afterwards, or `none` when the call ends in
`log.Fatal*`. As in the source, the value returned after the append is the
`LastValue` of the document the append returned. -/
def readCounterValue (col : Counter) (docID : String) : Option (Int × Counter) :=
  match findCounter "1" col with
  | none => none
  | some cnt =>
    match lookupDocID docID cnt.UsedValues with
    | some value => some (value, col)
    | none =>
      match findAndIncr cnt.ID col with
      | none => none
      | some cnt1 =>
        match addUsedDocID cnt1.ID docID cnt1.LastValue cnt1 with
        | none => none
        | some cnt2 => some (cnt2.LastValue, cnt2)

/-- The store a call run alone leaves when the loop finds no entry:
`lastValue` incremented and `(docID, lastValue + 1)` appended. -/
def recorded (col : Counter) (docID : String) : Counter :=
  { col with LastValue := col.LastValue + 1,
             UsedValues := col.UsedValues ++ [{ DocID := docID, Value := col.LastValue + 1 }] }

/-- Invariant of sequential traffic: no recorded value exceeds `lastValue`,
and no two entries of the ledger hold the same value. -/
def LedgerOk (col : Counter) : Prop :=
  (∀ u ∈ col.UsedValues, u.Value ≤ col.LastValue) ∧
    (col.UsedValues.map UsedCounter.Value).Nodup

instance (col : Counter) : Decidable (LedgerOk col) := by
  unfold LedgerOk
  infer_instance

/-- A series as seeded before any traffic: named `"1"`, empty ledger. -/
def seed (id : Nat) (docType : String) (lastValue : Int) : Counter :=
  { ID := id, Name := "1", DocType := docType, LastValue := lastValue, UsedValues := [] }

/-- Sequential traffic: the calls of `docIDs` one after the other, each on the
store the previous one left. The values returned, in order, and the final
store; `none` as soon as one call ends in `log.Fatal*`. -/
def readAll (col : Counter) : List String → Option (List Int × Counter)
  | [] => some ([], col)
  | docID :: rest =>
    match readCounterValue col docID with
    | none => none
    | some (value, col1) =>
      match readAll col1 rest with
      | none => none
      | some (values, col2) => some (value :: values, col2)

/-- States a series reaches from `col` by sequential `readCounterValue`
calls that return. -/
inductive Reachable (col : Counter) : Counter → Prop
  | seeded : Reachable col col
  | call (col1 col2 : Counter) (docID : String) (value : Int) :
      Reachable col col1 → readCounterValue col1 docID = some (value, col2) →
      Reachable col col2

/-! ## Interleaved execution

Each store operation is atomic on the document. The session and transaction
that `readCounterValue` opens are passed to none of the operations, so the
three operations of a call are not one unit: between two of them, operations
of other calls may take effect. A call in progress is described by the point
it has reached in `readCounterValue` and the local variable `cnt`. -/

/-- Progress of one `readCounterValue` call. -/
inductive Call where
  /-- Before `findCounter`. -/
  | start (docID : String)
  /-- After `findCounter` and a loop that found no entry; `cnt` is the
  document `findCounter` returned. -/
  | missed (docID : String) (cnt : Counter)
  /-- After `findAndIncr`; `cnt` is the document it returned. -/
  | incremented (docID : String) (cnt : Counter)
  /-- The call returned `value`. -/
  | returned (value : Int)
  /-- The call ended in `log.Fatal*`. -/
  | fatal
deriving DecidableEq, Repr

/-- The next store operation of a call (with the local code that follows it),
run atomically on store `col`: the store and the call afterwards. -/
def Call.step (col : Counter) : Call → Counter × Call
  | .start docID =>
    match findCounter "1" col with
    | none => (col, .fatal)
    | some cnt =>
      match lookupDocID docID cnt.UsedValues with
      | some value => (col, .returned value)
      | none => (col, .missed docID cnt)
  | .missed docID cnt =>
    match findAndIncr cnt.ID col with
    | none => (col, .fatal)
    | some cnt1 => (cnt1, .incremented docID cnt1)
  | .incremented docID cnt =>
    match addUsedDocID cnt.ID docID cnt.LastValue col with
    | none => (col, .fatal)
    | some cnt2 => (cnt2, .returned cnt2.LastValue)
  | .returned value => (col, .returned value)
  | .fatal => (col, .fatal)

/-- The shared store and the calls in progress on it. -/
structure Sys where
  col : Counter
  calls : List Call
deriving DecidableEq, Repr

/-- Call number `i` performs its next store operation. -/
def Sys.stepAt (s : Sys) (i : Nat) : Sys :=
  match s.calls[i]? with
  | none => s
  | some c => { col := (c.step s.col).1, calls := s.calls.set i (c.step s.col).2 }

/-- An interleaving: `schedule` lists, in order, which call moves next. -/
def Sys.run (s : Sys) (schedule : List Nat) : Sys :=
  schedule.foldl Sys.stepAt s

/-- Calls for `docIDs`, none of which has started, on store `col`. -/
def Sys.init (col : Counter) (docIDs : List String) : Sys :=
  { col := col, calls := docIDs.map Call.start }

/-! ## The message handler -/

/-- Payload of a message. -/
abbrev Bytes := List Nat

/-- Event `DocumentPreparedEvent` (field `Type` is `Typ` here). -/
structure DocumentPreparedEvent where
  ID : String
  Typ : String
  Amount : Nat
  Currency : String
deriving DecidableEq, Repr

/-- Event `InvoiceCreatedEvent` (field `Type` is `Typ` here). -/
structure InvoiceCreatedEvent where
  ID : String
  FiscalNumber : String
  Typ : String
  Amount : Nat
  Currency : String
deriving DecidableEq, Repr

/-- How one run of the handler ends. -/
inductive Ending where
  /-- `msg.Ack()` reached: the handler returns and the process goes on. -/
  | acked
  /-- `panic(err)`: nothing recovers it, the process terminates. -/
  | panicked
  /-- `log.Fatalf`: the process exits. -/
  | exited
deriving DecidableEq, Repr

/-- Channel the handler publishes on. -/
def invoiceChannel : String := "fiscas.invoice.invoices-channel"

/-- What one run of the handler did: how it ended, the store afterwards and
the messages it published, each with its channel. -/
structure Handled where
  ending : Ending
  col : Counter
  published : List (String × Bytes)
deriving DecidableEq, Repr

/-- The handler subscribed to `preparedInvoicesChannel`. The library calls
are parameters: `unmarshal` is `json.Unmarshal` into a
`DocumentPreparedEvent`, `marshal` is `json.Marshal` of the event and
`publish` is `conn.Publish` (whether it succeeds), `none` and `false` being
their error results; `strconv.FormatInt (counter, 10)` is `toString`. -/
def handler (unmarshal : Bytes → Option DocumentPreparedEvent)
    (marshal : InvoiceCreatedEvent → Option Bytes) (publish : String → Bytes → Bool)
    (col : Counter) (data : Bytes) : Handled :=
  match unmarshal data with
  | none => { ending := .panicked, col := col, published := [] }
  | some req =>
    match readCounterValue col req.ID with
    | none => { ending := .exited, col := col, published := [] }
    | some (counter, col1) =>
      match marshal { ID := req.ID, FiscalNumber := toString counter, Typ := req.Typ,
                      Amount := req.Amount, Currency := req.Currency } with
      | none => { ending := .exited, col := col1, published := [] }
      | some bytes =>
        if publish invoiceChannel bytes then
          { ending := .acked, col := col1, published := [(invoiceChannel, bytes)] }
        else { ending := .exited, col := col1, published := [] }

/-- The subscription: the handler runs on each delivered message in turn for
as long as the process lives. The result lists the runs that took place. -/
def consume (h : Counter → Bytes → Handled) : Counter → List Bytes → List Handled
  | _, [] => []
  | col, data :: rest =>
    match (h col data).ending with
    | .acked => h col data :: consume h (h col data).col rest
    | _ => [h col data]

/-! ## The ledger lookup -/

theorem lookupDocID_append_of_some {docID : String} {l : List UsedCounter} {v : Int}
    (h : lookupDocID docID l = some v) (r : List UsedCounter) :
    lookupDocID docID (l ++ r) = some v := by
  induction l with
  | nil => simp [lookupDocID] at h
  | cons u us ih =>
    by_cases hu : u.DocID = docID
    · simpa [lookupDocID, hu] using h
    · simp only [lookupDocID, hu, if_false] at h
      simpa [lookupDocID, hu] using ih h

theorem lookupDocID_append_of_none {docID : String} {l : List UsedCounter}
    (h : lookupDocID docID l = none) (r : List UsedCounter) :
    lookupDocID docID (l ++ r) = lookupDocID docID r := by
  induction l with
  | nil => rfl
  | cons u us ih =>
    by_cases hu : u.DocID = docID
    · simp [lookupDocID, hu] at h
    · simp only [lookupDocID, hu, if_false] at h
      simpa [lookupDocID, hu] using ih h

theorem lookupDocID_mem {docID : String} {l : List UsedCounter} {v : Int}
    (h : lookupDocID docID l = some v) : ({ DocID := docID, Value := v } : UsedCounter) ∈ l := by
  induction l with
  | nil => simp [lookupDocID] at h
  | cons u us ih =>
    by_cases hu : u.DocID = docID
    · simp only [lookupDocID, hu, if_true, Option.some.injEq] at h
      cases u
      simp_all
    · simp only [lookupDocID, hu, if_false] at h
      exact List.mem_cons_of_mem _ (ih h)

theorem lookupDocID_eq_none_iff (docID : String) (l : List UsedCounter) :
    lookupDocID docID l = none ↔ docID ∉ l.map UsedCounter.DocID := by
  induction l with
  | nil => simp [lookupDocID]
  | cons u us ih =>
    by_cases hu : u.DocID = docID
    · simp [lookupDocID, hu]
    · have hu2 : ¬ docID = u.DocID := fun e => hu e.symm
      simp [lookupDocID, hu, hu2, ih]

theorem lookupDocID_isSome_iff (docID : String) (l : List UsedCounter) :
    (∃ v, lookupDocID docID l = some v) ↔ docID ∈ l.map UsedCounter.DocID := by
  have h := lookupDocID_eq_none_iff docID l
  cases hl : lookupDocID docID l with
  | none => simpa [hl] using h
  | some v =>
    rw [hl] at h
    simp only [reduceCtorEq, false_iff, not_not] at h
    simpa using h

/-! ## One call, run alone -/

theorem readCounterValue_hit {col : Counter} {docID : String} {v : Int}
    (hname : col.Name = "1") (hl : lookupDocID docID col.UsedValues = some v) :
    readCounterValue col docID = some (v, col) := by
  simp [readCounterValue, findCounter, hname, hl]

theorem readCounterValue_miss {col : Counter} {docID : String}
    (hname : col.Name = "1") (hl : lookupDocID docID col.UsedValues = none)
    (hb : col.LastValue + 1 ≤ maxInt64) :
    readCounterValue col docID = some (col.LastValue + 1, recorded col docID) := by
  simp [readCounterValue, findCounter, findAndIncr, addUsedDocID, recorded, hname, hl, hb]

theorem readCounterValue_cases {col col1 : Counter} {docID : String} {v : Int}
    (h : readCounterValue col docID = some (v, col1)) :
    col.Name = "1" ∧
      ((lookupDocID docID col.UsedValues = some v ∧ col1 = col) ∨
       (lookupDocID docID col.UsedValues = none ∧ col.LastValue + 1 ≤ maxInt64 ∧
          v = col.LastValue + 1 ∧ col1 = recorded col docID)) := by
  by_cases hname : col.Name = "1"
  · refine ⟨hname, ?_⟩
    cases hl : lookupDocID docID col.UsedValues with
    | some w =>
      rw [readCounterValue_hit hname hl] at h
      simp only [Option.some.injEq, Prod.mk.injEq] at h
      exact Or.inl ⟨by rw [h.1], h.2.symm⟩
    | none =>
      by_cases hb : col.LastValue + 1 ≤ maxInt64
      · rw [readCounterValue_miss hname hl hb] at h
        simp only [Option.some.injEq, Prod.mk.injEq] at h
        exact Or.inr ⟨rfl, hb, h.1.symm, h.2.symm⟩
      · simp [readCounterValue, findCounter, findAndIncr, hname, hl, hb] at h
  · simp [readCounterValue, findCounter, hname] at h

theorem recorded_lookup {col : Counter} {docID : String}
    (hl : lookupDocID docID col.UsedValues = none) :
    lookupDocID docID (recorded col docID).UsedValues = some (col.LastValue + 1) := by
  simp [recorded, lookupDocID_append_of_none hl, lookupDocID]

/-- After a call for `docID` returned `v`, the ledger yields `v` for `docID`. -/
theorem readCounterValue_lookup {col col1 : Counter} {docID : String} {v : Int}
    (h : readCounterValue col docID = some (v, col1)) :
    col1.Name = "1" ∧ lookupDocID docID col1.UsedValues = some v := by
  obtain ⟨hname, ⟨hl, rfl⟩ | ⟨hl, _, rfl, rfl⟩⟩ := readCounterValue_cases h
  · exact ⟨hname, hl⟩
  · exact ⟨hname, recorded_lookup hl⟩

/-- A call never changes what the ledger yields for a document it already
holds. -/
theorem readCounterValue_keeps {col col1 : Counter} {docID d : String} {v w : Int}
    (h : readCounterValue col docID = some (v, col1))
    (hd : lookupDocID d col.UsedValues = some w) :
    lookupDocID d col1.UsedValues = some w := by
  obtain ⟨_, ⟨_, rfl⟩ | ⟨_, _, _, rfl⟩⟩ := readCounterValue_cases h
  · exact hd
  · exact lookupDocID_append_of_some hd _

theorem readAll_replicate {col : Counter} {docID : String} {v : Int}
    (hname : col.Name = "1") (hl : lookupDocID docID col.UsedValues = some v) (n : Nat) :
    readAll col (List.replicate n docID) = some (List.replicate n v, col) := by
  induction n with
  | zero => rfl
  | succ n ih => simp [List.replicate_succ, readAll, readCounterValue_hit hname hl, ih]

/-! ## Idempotence -/

theorem reachable_keeps {col1 col2 : Counter} {docID : String} {v : Int}
    (hr : Reachable col1 col2) (hname : col1.Name = "1")
    (hl : lookupDocID docID col1.UsedValues = some v) :
    col2.Name = "1" ∧ lookupDocID docID col2.UsedValues = some v := by
  induction hr with
  | seeded => exact ⟨hname, hl⟩
  | call c1 c2 d w _ hcall ih =>
    exact ⟨(readCounterValue_lookup hcall).1, readCounterValue_keeps hcall ih.2⟩

/-- C1: once a call for `docID` has returned `v`, leaving store `col1`, a
further call for `docID` returns `v` and leaves the store as it is. This holds
for the call made right after on `col1`, for a call made on any store `col2`
that later sequential calls (for any documents) have led to, and for any
number `n` of repeated calls: the `n + 1` sequential calls for `docID`,
the first one included, all return `v`. -/
theorem readCounterValue_idempotent (col col1 : Counter) (docID : String) (v : Int)
    (h : readCounterValue col docID = some (v, col1)) :
    readCounterValue col1 docID = some (v, col1) ∧
      (∀ col2, Reachable col1 col2 → readCounterValue col2 docID = some (v, col2)) ∧
      ∀ n : Nat, readAll col (List.replicate (n + 1) docID)
        = some (List.replicate (n + 1) v, col1) := by
  obtain ⟨hname, hl⟩ := readCounterValue_lookup h
  refine ⟨readCounterValue_hit hname hl, ?_, ?_⟩
  · intro col2 hr
    obtain ⟨hname2, hl2⟩ := reachable_keeps hr hname hl
    exact readCounterValue_hit hname2 hl2
  · intro n
    simp [List.replicate_succ, readAll, h, readAll_replicate hname hl n]

theorem readCounterValue_idempotent_witness :
    readCounterValue (seed 7 "invoice" 41) "docA"
        = some (42, recorded (seed 7 "invoice" 41) "docA") ∧
      readCounterValue (recorded (seed 7 "invoice" 41) "docA") "docA"
        = some (42, recorded (seed 7 "invoice" 41) "docA") ∧
      readAll (seed 7 "invoice" 41) (List.replicate (2 + 1) "docA")
        = some (List.replicate (2 + 1) 42, recorded (seed 7 "invoice" 41) "docA") :=
  ⟨by decide,
   (readCounterValue_idempotent (seed 7 "invoice" 41) _ "docA" 42 (by decide)).1,
   (readCounterValue_idempotent (seed 7 "invoice" 41) _ "docA" 42 (by decide)).2.2 2⟩

/-! ## The ledger invariant under sequential traffic -/

theorem ledgerOk_of_empty {col : Counter} (h : col.UsedValues = []) : LedgerOk col := by
  simp [LedgerOk, h]

theorem ledgerOk_recorded {col : Counter} (h : LedgerOk col) (docID : String) :
    LedgerOk (recorded col docID) := by
  obtain ⟨hle, hnd⟩ := h
  refine ⟨?_, ?_⟩
  · intro u hu
    simp only [recorded, List.mem_append, List.mem_singleton] at hu ⊢
    rcases hu with hu | rfl
    · have := hle u hu
      omega
    · exact le_refl _
  · simp only [recorded, List.map_append, List.map_cons, List.map_nil]
    rw [List.nodup_append]
    refine ⟨hnd, List.nodup_singleton _, ?_⟩
    intro a ha hb
    simp only [List.mem_singleton] at hb
    obtain ⟨u, hu, rfl⟩ := List.mem_map.1 ha
    have := hle u hu
    omega

theorem ledgerOk_call {col col1 : Counter} {docID : String} {v : Int}
    (hok : LedgerOk col) (h : readCounterValue col docID = some (v, col1)) :
    LedgerOk col1 := by
  obtain ⟨_, ⟨_, rfl⟩ | ⟨_, _, _, rfl⟩⟩ := readCounterValue_cases h
  · exact hok
  · exact ledgerOk_recorded hok docID

theorem ledgerOk_reachable {col col1 : Counter} (hok : LedgerOk col)
    (hr : Reachable col col1) : LedgerOk col1 := by
  induction hr with
  | seeded => exact hok
  | call c1 c2 docID v _ hcall ih => exact ledgerOk_call ih hcall

theorem lastValue_le_call {col col1 : Counter} {docID : String} {v : Int}
    (h : readCounterValue col docID = some (v, col1)) :
    col.LastValue ≤ col1.LastValue := by
  obtain ⟨_, ⟨_, rfl⟩ | ⟨_, _, _, rfl⟩⟩ := readCounterValue_cases h
  · exact le_refl _
  · simp only [recorded]
    omega

theorem lastValue_le_reachable {col col1 : Counter} (hr : Reachable col col1) :
    col.LastValue ≤ col1.LastValue := by
  induction hr with
  | seeded => exact le_refl _
  | call c1 c2 docID v _ hcall ih => exact le_trans ih (lastValue_le_call hcall)

theorem readAll_cons {col col2 : Counter} {docID : String} {rest : List String}
    {vs : List Int} (h : readAll col (docID :: rest) = some (vs, col2)) :
    ∃ v col1 vs1, readCounterValue col docID = some (v, col1) ∧
      readAll col1 rest = some (vs1, col2) ∧ vs = v :: vs1 := by
  simp only [readAll] at h
  cases hc : readCounterValue col docID with
  | none => simp [hc] at h
  | some r =>
    obtain ⟨v, col1⟩ := r
    cases hr : readAll col1 rest with
    | none => simp [hc, hr] at h
    | some q =>
      obtain ⟨vs1, col3⟩ := q
      simp only [hc, hr, Option.some.injEq, Prod.mk.injEq] at h
      exact ⟨v, col1, vs1, rfl, by rw [← h.2, hr], h.1.symm⟩

theorem readAll_keeps {col col1 : Counter} {docIDs : List String} {vs : List Int}
    (h : readAll col docIDs = some (vs, col1)) {d : String} {w : Int}
    (hd : lookupDocID d col.UsedValues = some w) :
    lookupDocID d col1.UsedValues = some w := by
  induction docIDs generalizing col vs with
  | nil =>
    simp only [readAll, Option.some.injEq, Prod.mk.injEq] at h
    rw [← h.2]
    exact hd
  | cons docID rest ih =>
    obtain ⟨v, col2, vs1, hc, hr, _⟩ := readAll_cons h
    exact ih hr (readCounterValue_keeps hc hd)

/-- After sequential traffic the ledger yields, for each call, the value that
call returned. -/
theorem readAll_lookup {col col1 : Counter} {docIDs : List String} {vs : List Int}
    (hok : LedgerOk col) (h : readAll col docIDs = some (vs, col1)) :
    LedgerOk col1 ∧ vs.length = docIDs.length ∧
      ∀ p ∈ docIDs.zip vs, lookupDocID p.1 col1.UsedValues = some p.2 := by
  induction docIDs generalizing col vs with
  | nil =>
    simp only [readAll, Option.some.injEq, Prod.mk.injEq] at h
    obtain ⟨rfl, rfl⟩ := h
    exact ⟨hok, rfl, by simp⟩
  | cons docID rest ih =>
    obtain ⟨v, col2, vs1, hc, hr, rfl⟩ := readAll_cons h
    obtain ⟨hok1, hlen, hall⟩ := ih (ledgerOk_call hok hc) hr
    refine ⟨hok1, by simp [hlen], ?_⟩
    intro p hp
    simp only [List.zip_cons_cons, List.mem_cons] at hp
    rcases hp with rfl | hp
    · exact readAll_keeps hr (readCounterValue_lookup hc).2
    · exact hall p hp

theorem readAll_isSome {col : Counter} (docIDs : List String) (hname : col.Name = "1")
    (hb : col.LastValue + docIDs.length ≤ maxInt64) : (readAll col docIDs).isSome := by
  induction docIDs generalizing col with
  | nil => rfl
  | cons docID rest ih =>
    simp only [List.length_cons, Nat.cast_add, Nat.cast_one] at hb
    have hstep : ∃ v col1, readCounterValue col docID = some (v, col1) ∧ col1.Name = "1" ∧
        col1.LastValue ≤ col.LastValue + 1 := by
      cases hl : lookupDocID docID col.UsedValues with
      | some w => exact ⟨w, col, readCounterValue_hit hname hl, hname, by omega⟩
      | none =>
        have hb1 : col.LastValue + 1 ≤ maxInt64 := by omega
        exact ⟨_, _, readCounterValue_miss hname hl hb1, hname, le_refl _⟩
    obtain ⟨v, col1, hc, hname1, hle⟩ := hstep
    have h1 := ih hname1 (by omega)
    cases hr : readAll col1 rest with
    | none => simp [hr] at h1
    | some q => simp [readAll, hc, hr]

/-! ## Uniqueness, no duplicate claims, monotonicity -/

/-- C2: on a series named "1" with an empty ledger and any baseline
`lastValue`, a sequence `docIDs` of sequential calls that stays within the
64-bit range runs to the end, and whenever a sequence of sequential calls has
returned values `vs` (one per call), any two calls made for distinct document
ids returned different values. -/
theorem readAll_unique (col : Counter) (docIDs : List String)
    (hempty : col.UsedValues = []) :
    (col.Name = "1" → col.LastValue + docIDs.length ≤ maxInt64 →
        (readAll col docIDs).isSome) ∧
      ∀ vs col1, readAll col docIDs = some (vs, col1) →
        vs.length = docIDs.length ∧
          ∀ p ∈ docIDs.zip vs, ∀ q ∈ docIDs.zip vs, p.1 ≠ q.1 → p.2 ≠ q.2 := by
  refine ⟨fun hname hb => readAll_isSome docIDs hname hb, ?_⟩
  intro vs col1 h
  obtain ⟨hok, hlen, hall⟩ := readAll_lookup (ledgerOk_of_empty hempty) h
  refine ⟨hlen, ?_⟩
  intro p hp q hq hne heq
  have h1 := lookupDocID_mem (hall p hp)
  have h2 := lookupDocID_mem (hall q hq)
  have h3 := List.inj_on_of_nodup_map hok.2 h1 h2 heq
  simp only [UsedCounter.mk.injEq] at h3
  exact hne h3.1

theorem readAll_unique_witness :
    (seed 7 "invoice" 10).UsedValues = [] ∧
      readAll (seed 7 "invoice" 10) ["docA", "docB", "docA", "docC"]
        = some ([11, 12, 11, 13],
            recorded (recorded (recorded (seed 7 "invoice" 10) "docA") "docB") "docC") ∧
      ∀ p ∈ ["docA", "docB", "docA", "docC"].zip [(11 : Int), 12, 11, 13],
        ∀ q ∈ ["docA", "docB", "docA", "docC"].zip [(11 : Int), 12, 11, 13],
          p.1 ≠ q.1 → p.2 ≠ q.2 :=
  ⟨rfl, by decide,
   ((readAll_unique (seed 7 "invoice" 10) ["docA", "docB", "docA", "docC"] rfl).2
      [11, 12, 11, 13]
      (recorded (recorded (recorded (seed 7 "invoice" 10) "docA") "docB") "docC")
      (by decide)).2⟩

/-- C7 (I3): in every state a series reaches from an empty ledger by sequential
calls that return, no two ledger entries hold the same value. -/
theorem reachable_no_duplicate_values (col col1 : Counter)
    (hempty : col.UsedValues = []) (hr : Reachable col col1) :
    col1.UsedValues.Pairwise (fun u w => u.Value ≠ w.Value) := by
  have h := (ledgerOk_reachable (ledgerOk_of_empty hempty) hr).2
  exact List.pairwise_map.1 h

theorem reachable_no_duplicate_values_witness :
    (seed 7 "invoice" 10).UsedValues = [] ∧
      (recorded (recorded (seed 7 "invoice" 10) "docA") "docB").UsedValues
        = [⟨"docA", 11⟩, ⟨"docB", 12⟩] ∧
      (recorded (recorded (seed 7 "invoice" 10) "docA") "docB").UsedValues.Pairwise
        (fun u w => u.Value ≠ w.Value) :=
  ⟨rfl, by decide,
   reachable_no_duplicate_values (seed 7 "invoice" 10)
     (recorded (recorded (seed 7 "invoice" 10) "docA") "docB") rfl
     (Reachable.call (recorded (seed 7 "invoice" 10) "docA") _ "docB" 12
       (Reachable.call (seed 7 "invoice" 10) _ "docA" 11 Reachable.seeded (by decide))
       (by decide))⟩

/-- C8 (I1): on the series named "1" with `lastValue` below the `int64`
maximum, a call for a document id already in the ledger returns and leaves the
store, hence `lastValue`, unchanged; a call for any other document id returns
and leaves `lastValue` exactly one higher. Across any sequence of calls
`lastValue` never decreases. -/
theorem lastValue_monotone (col : Counter) (docID : String) :
    (col.Name = "1" → col.LastValue < maxInt64 →
      (docID ∈ col.UsedValues.map UsedCounter.DocID →
          ∃ v, readCounterValue col docID = some (v, col)) ∧
      (docID ∉ col.UsedValues.map UsedCounter.DocID →
          ∃ v col1, readCounterValue col docID = some (v, col1) ∧
            col1.LastValue = col.LastValue + 1)) ∧
    (∀ col1, Reachable col col1 → col.LastValue ≤ col1.LastValue) := by
  refine ⟨fun hname hlt => ⟨?_, ?_⟩, fun col1 hr => lastValue_le_reachable hr⟩
  · intro hmem
    obtain ⟨v, hv⟩ := (lookupDocID_isSome_iff docID col.UsedValues).2 hmem
    exact ⟨v, readCounterValue_hit hname hv⟩
  · intro hmem
    have hl := (lookupDocID_eq_none_iff docID col.UsedValues).2 hmem
    exact ⟨_, _, readCounterValue_miss hname hl (by omega), rfl⟩

theorem lastValue_monotone_witness :
    (recorded (seed 7 "invoice" 10) "docA").Name = "1" ∧
      (recorded (seed 7 "invoice" 10) "docA").LastValue < maxInt64 ∧
      "docB" ∉ (recorded (seed 7 "invoice" 10) "docA").UsedValues.map UsedCounter.DocID ∧
      ∃ v col1, readCounterValue (recorded (seed 7 "invoice" 10) "docA") "docB"
          = some (v, col1) ∧
        col1.LastValue = (recorded (seed 7 "invoice" 10) "docA").LastValue + 1 :=
  ⟨rfl, by decide, by decide,
   ((lastValue_monotone (recorded (seed 7 "invoice" 10) "docA") "docB").1 rfl
      (by decide)).2 (by decide)⟩

/-! ## Scenario A -/

/-- C9, at the top of the range: on a series seeded with the largest `int64`
as `lastValue`, the request for `docA` does not return (the store refuses the
increment and the call ends in `log.Fatalf`), so it does not return
`lastValue + 1`. -/
theorem scenarioA_maxInt64 :
    readCounterValue (seed 7 "invoice" maxInt64) "docA" = none := by
  decide

/-- C9, amended: on the series named "1" with an empty ledger and a baseline
`lastValue = v` with `v + 2` within the `int64` range, a request for `docA`
returns `v + 1`, a second request for `docA` returns `v + 1` again and
changes nothing, and a following request for a different document `docB`
returns `v + 2`. -/
theorem scenarioA (col : Counter) (docA docB : String)
    (hname : col.Name = "1") (hempty : col.UsedValues = [])
    (hb : col.LastValue + 2 ≤ maxInt64) (hne : docA ≠ docB) :
    readCounterValue col docA = some (col.LastValue + 1, recorded col docA) ∧
      readCounterValue (recorded col docA) docA
        = some (col.LastValue + 1, recorded col docA) ∧
      readCounterValue (recorded col docA) docB
        = some (col.LastValue + 2, recorded (recorded col docA) docB) := by
  have hl : lookupDocID docA col.UsedValues = none := by simp [hempty, lookupDocID]
  have h1 := readCounterValue_miss hname hl (by omega)
  refine ⟨h1, readCounterValue_hit hname (recorded_lookup hl), ?_⟩
  have hl2 : lookupDocID docB (recorded col docA).UsedValues = none := by
    simp [recorded, hempty, lookupDocID, hne]
  have hb2 : (recorded col docA).LastValue + 1 ≤ maxInt64 := by
    simp only [recorded]
    omega
  have h2 := @readCounterValue_miss (recorded col docA) docB hname hl2 hb2
  have hv : (recorded col docA).LastValue + 1 = col.LastValue + 2 := by
    simp only [recorded]
    ring
  rw [h2, hv]

theorem scenarioA_witness :
    (seed 7 "invoice" 0).Name = "1" ∧ (seed 7 "invoice" 0).UsedValues = [] ∧
      (seed 7 "invoice" 0).LastValue + 2 ≤ maxInt64 ∧ "docA" ≠ "docB" ∧
      readCounterValue (seed 7 "invoice" 0) "docA"
        = some (0 + 1, recorded (seed 7 "invoice" 0) "docA") ∧
      readCounterValue (recorded (seed 7 "invoice" 0) "docA") "docA"
        = some (0 + 1, recorded (seed 7 "invoice" 0) "docA") ∧
      readCounterValue (recorded (seed 7 "invoice" 0) "docA") "docB"
        = some (0 + 2, recorded (recorded (seed 7 "invoice" 0) "docA") "docB") :=
  ⟨rfl, rfl, by decide, by decide,
   scenarioA (seed 7 "invoice" 0) "docA" "docB" rfl rfl (by decide) (by decide)⟩

/-! ## Interleaved calls -/

/-- A call that runs its three store operations with no other call in
between behaves as `readCounterValue`. -/
theorem run_alone (col : Counter) (docID : String) :
    (Sys.init col [docID]).run [0, 0, 0] =
      match readCounterValue col docID with
      | some (v, col1) => { col := col1, calls := [.returned v] }
      | none => { col := col, calls := [.fatal] } := by
  by_cases hname : col.Name = "1"
  · cases hl : lookupDocID docID col.UsedValues with
    | some w =>
      rw [readCounterValue_hit hname hl]
      simp [Sys.init, Sys.run, Sys.stepAt, Call.step, findCounter, hname, hl]
    | none =>
      by_cases hb : col.LastValue + 1 ≤ maxInt64
      · rw [readCounterValue_miss hname hl hb]
        simp [Sys.init, Sys.run, Sys.stepAt, Call.step, findCounter, findAndIncr,
          addUsedDocID, recorded, hname, hl, hb]
      · simp [Sys.init, Sys.run, Sys.stepAt, Call.step, readCounterValue, findCounter,
          findAndIncr, hname, hl, hb]
  · simp [Sys.init, Sys.run, Sys.stepAt, Call.step, readCounterValue, findCounter, hname]

/-- C3: series "1" with `lastValue = 0` and an empty ledger, a call for `docA`
and a call for `docB`. The call for `docA` finds no entry and increments
(`findAndIncr` returns `lastValue = 1`), then the call for `docB` finds no
entry and increments. When the call for `docA` now appends, it records `1`
for `docA` and returns `2`, the `lastValue` of the document the append
returned. -/
theorem returns_lastValue_of_append :
    ((Sys.init (seed 7 "invoice" 0) ["docA", "docB"]).run [0, 0, 1, 1]).calls[0]?
        = some (.incremented "docA" (seed 7 "invoice" 1)) ∧
      ((Sys.init (seed 7 "invoice" 0) ["docA", "docB"]).run [0, 0, 1, 1, 0]).calls[0]?
        = some (.returned 2) ∧
      lookupDocID "docA"
          ((Sys.init (seed 7 "invoice" 0) ["docA", "docB"]).run [0, 0, 1, 1, 0]).col.UsedValues
        = some 1 := by
  decide

/-- C4: series "1" with `lastValue = 0` and an empty ledger, a call for `docA`
and a call for `docB` whose store operations alternate. Both calls return
`2`, while the ledger records `1` for `docA` and `2` for `docB`. -/
theorem distinct_documents_same_value :
    (Sys.init (seed 7 "invoice" 0) ["docA", "docB"]).run [0, 1, 0, 1, 0, 1]
      = { col := { seed 7 "invoice" 2 with UsedValues := [⟨"docA", 1⟩, ⟨"docB", 2⟩] },
          calls := [.returned 2, .returned 2] } := by
  decide

/-- C5: series "1" with `lastValue = 0` and an empty ledger, calls for the
same `docX`. Two calls look the ledger up before either has appended; the
first then increments and appends, and after it the second. The first call
returns `1`, the second `2`, and the ledger holds two entries for `docX`. A
third call for `docX` made afterwards takes the lookup path and returns `1`,
the value of the first entry: not the value the second call returned. -/
theorem same_document_two_values :
    (Sys.init (seed 7 "invoice" 0) ["docX", "docX"]).run [0, 1, 0, 0, 1, 1]
      = { col := { seed 7 "invoice" 2 with UsedValues := [⟨"docX", 1⟩, ⟨"docX", 2⟩] },
          calls := [.returned 1, .returned 2] } ∧
    (Sys.init (seed 7 "invoice" 0) ["docX", "docX", "docX"]).run [0, 1, 0, 0, 1, 1, 2]
      = { col := { seed 7 "invoice" 2 with UsedValues := [⟨"docX", 1⟩, ⟨"docX", 2⟩] },
          calls := [.returned 1, .returned 2, .returned 1] } := by
  decide

/-! ### Calls that start after the entry is recorded -/

theorem step_settled {col : Counter} {docX : String} {v : Int} (hname : col.Name = "1")
    (hl : lookupDocID docX col.UsedValues = some v) {c : Call}
    (hc : c = .start docX ∨ c = .returned v) : c.step col = (col, .returned v) := by
  rcases hc with rfl | rfl
  · simp [Call.step, findCounter, hname, hl]
  · rfl

theorem stepAt_settled {col : Counter} {docX : String} {v : Int} (hname : col.Name = "1")
    (hl : lookupDocID docX col.UsedValues = some v) {s : Sys} (hcol : s.col = col)
    (hcalls : ∀ (i : Nat) (c : Call), s.calls[i]? = some c → c = .start docX ∨ c = .returned v) (j : Nat) :
    s.stepAt j = { col := col, calls := s.calls.set j (.returned v) } := by
  unfold Sys.stepAt
  cases hj : s.calls[j]? with
  | none =>
    have hlen : s.calls.length ≤ j := List.getElem?_eq_none_iff.1 hj
    simp only [List.set_eq_of_length_le hlen]
    cases s
    simp_all
  | some c =>
    simp only [hcol, step_settled hname hl (hcalls j c hj)]

theorem run_settled {col : Counter} {docX : String} {v : Int} (hname : col.Name = "1")
    (hl : lookupDocID docX col.UsedValues = some v) (rest : List Nat) {s : Sys}
    (hcol : s.col = col)
    (hcalls : ∀ (i : Nat) (c : Call), s.calls[i]? = some c → c = .start docX ∨ c = .returned v) :
    (s.run rest).col = col ∧ (s.run rest).calls.length = s.calls.length ∧
      (∀ (i : Nat) (c : Call), (s.run rest).calls[i]? = some c → c = .start docX ∨ c = .returned v) ∧
      (∀ i : Nat, i < s.calls.length → (s.calls[i]? = some (.returned v) ∨ i ∈ rest) →
        (s.run rest).calls[i]? = some (.returned v)) := by
  induction rest generalizing s with
  | nil =>
    refine ⟨hcol, rfl, hcalls, ?_⟩
    intro i _ h
    simpa using h
  | cons j rest ih =>
    have hstep := stepAt_settled hname hl hcol hcalls j
    have hcalls1 : ∀ (i : Nat) (c : Call), (s.stepAt j).calls[i]? = some c →
        c = .start docX ∨ c = .returned v := by
      intro i c hi
      rw [hstep] at hi
      simp only [List.getElem?_set] at hi
      split at hi
      · split at hi
        · simp only [Option.some.injEq] at hi
          exact Or.inr hi.symm
        · simp at hi
      · exact hcalls i c hi
    obtain ⟨h1, h2, h3, h4⟩ := @ih (s.stepAt j) (by rw [hstep]) hcalls1
    have hlen : (s.stepAt j).calls.length = s.calls.length := by
      rw [hstep]
      simp
    have hrun : s.run (j :: rest) = (s.stepAt j).run rest := rfl
    rw [hrun]
    refine ⟨h1, by rw [h2, hlen], h3, ?_⟩
    intro i hi h
    apply h4 i (by rw [hlen]; exact hi)
    rw [hstep]
    simp only [List.getElem?_set]
    by_cases hji : j = i
    · subst hji
      simp [hi]
    · simp only [hji, if_false]
      rcases h with h | h
      · exact Or.inl h
      · simp only [List.mem_cons] at h
        rcases h with h | h
        · exact absurd h.symm hji
        · exact Or.inr h

theorem first_call_alone {col : Counter} {docX : String} {n k : Nat}
    (hname : col.Name = "1") (hl : lookupDocID docX col.UsedValues = none)
    (hb : col.LastValue + 1 ≤ maxInt64) (hk : k < n) :
    (Sys.init col (List.replicate n docX)).run [k, k, k]
      = { col := recorded col docX,
          calls := (List.replicate n (Call.start docX)).set k
            (.returned (col.LastValue + 1)) } := by
  simp [Sys.init, Sys.run, Sys.stepAt, Call.step, findCounter, findAndIncr, addUsedDocID,
    recorded, hname, hl, hb, hk, List.set_set]

/-- Calls that do not overlap the first one: on the series named "1" with an
empty ledger and `lastValue` below the `int64` maximum, take `n` calls for the
same `docX` and an interleaving in which call number `k` performs its three
store operations before any other call performs its first. Then every other
call is a lookup hit: the store is the one call `k` left, and every call has
either not started or has returned `lastValue + 1`, and every call that was
scheduled has returned `lastValue + 1`. -/
theorem run_after_first_call (col : Counter) (docX : String) (n k : Nat)
    (rest : List Nat) (hname : col.Name = "1") (hempty : col.UsedValues = [])
    (hb : col.LastValue < maxInt64) (hk : k < n) :
    ((Sys.init col (List.replicate n docX)).run (k :: k :: k :: rest)).col
        = recorded col docX ∧
      (∀ (i : Nat) (c : Call),
        ((Sys.init col (List.replicate n docX)).run (k :: k :: k :: rest)).calls[i]? = some c →
          c = .start docX ∨ c = .returned (col.LastValue + 1)) ∧
      (∀ i : Nat, i < n → (i = k ∨ i ∈ rest) →
        ((Sys.init col (List.replicate n docX)).run (k :: k :: k :: rest)).calls[i]?
          = some (.returned (col.LastValue + 1))) := by
  have hl : lookupDocID docX col.UsedValues = none := by simp [hempty, lookupDocID]
  have hb1 : col.LastValue + 1 ≤ maxInt64 := by omega
  have hsplit : (Sys.init col (List.replicate n docX)).run (k :: k :: k :: rest)
      = ((Sys.init col (List.replicate n docX)).run [k, k, k]).run rest := rfl
  rw [hsplit, first_call_alone hname hl hb1 hk]
  have hname1 : (recorded col docX).Name = "1" := hname
  have hcalls : ∀ (i : Nat) (c : Call),
      ((List.replicate n (Call.start docX)).set k (.returned (col.LastValue + 1)))[i]? = some c →
        c = .start docX ∨ c = .returned (col.LastValue + 1) := by
    intro i c hi
    simp only [List.getElem?_set, List.getElem?_replicate] at hi
    split at hi
    · split at hi
      · simp only [Option.some.injEq] at hi
        exact Or.inr hi.symm
      · simp at hi
    · split at hi
      · simp only [Option.some.injEq] at hi
        exact Or.inl hi.symm
      · simp at hi
  obtain ⟨h1, _, h3, h4⟩ := @run_settled (recorded col docX) docX (col.LastValue + 1) hname1
    (recorded_lookup hl) rest
    { col := recorded col docX,
      calls := (List.replicate n (Call.start docX)).set k (.returned (col.LastValue + 1)) }
    rfl hcalls
  refine ⟨h1, h3, ?_⟩
  intro i hi h
  apply h4 i (by simpa using hi)
  rcases h with rfl | h
  · exact Or.inl (by simp [hi])
  · exact Or.inr h

/-! ## The ledger append -/

/-- C6, as stated: the ledger of the series already holds `(docA, 1)`.
Appending `(docA, 2)` does not leave the ledger unchanged: it now holds a
second entry for `docA`. -/
theorem addUsedDocID_second_entry :
    addUsedDocID 7 "docA" 2 { seed 7 "invoice" 1 with UsedValues := [⟨"docA", 1⟩] }
      = some { seed 7 "invoice" 1 with UsedValues := [⟨"docA", 1⟩, ⟨"docA", 2⟩] } := by
  decide

/-- C6, amended: `addUsedDocID` is an unconditional append. On every series,
whether or not its ledger holds an entry for `docID`, it succeeds, adds
`(docID, value)` as the last entry and returns the updated document, with the
earlier entries and `lastValue` as they were. When the ledger already held an
entry for `docID`, the lookup of `docID` in the updated ledger still yields
the value of that earlier entry. -/
theorem addUsedDocID_appends (col : Counter) (docID : String) (value : Int) :
    addUsedDocID col.ID docID value col
        = some { col with UsedValues := col.UsedValues ++ [⟨docID, value⟩] } ∧
      ∀ w : Int, lookupDocID docID col.UsedValues = some w →
        lookupDocID docID (col.UsedValues ++ [⟨docID, value⟩]) = some w := by
  refine ⟨by simp [addUsedDocID], ?_⟩
  intro w hw
  exact lookupDocID_append_of_some hw _

theorem addUsedDocID_appends_witness :
    lookupDocID "docA" (recorded (seed 7 "invoice" 0) "docA").UsedValues = some 1 ∧
      lookupDocID "docA" ((recorded (seed 7 "invoice" 0) "docA").UsedValues ++ [⟨"docA", 2⟩])
        = some 1 :=
  ⟨by decide,
   (addUsedDocID_appends (recorded (seed 7 "invoice" 0) "docA") "docA" 2).2 1 (by decide)⟩

/-! ## Malformed payloads -/

/-- C10, as stated: take for `json.Unmarshal` a decoder that fails on the
empty payload, and deliver the empty payload followed by a payload that
decodes. The handler panics on the first message; that is the only run that
takes place, nothing is published and the store is as seeded. (With a first
payload that decodes, both messages are handled.) -/
theorem malformed_payload_stops_consumer :
    consume
        (handler (fun data => if data = [] then none else some ⟨"docA", "invoice", 100, "EUR"⟩)
          (fun _ => some [1]) (fun _ _ => true))
        (seed 7 "invoice" 0) [[], [123, 125]]
      = [{ ending := .panicked, col := seed 7 "invoice" 0, published := [] }] ∧
    (consume
        (handler (fun data => if data = [] then none else some ⟨"docA", "invoice", 100, "EUR"⟩)
          (fun _ => some [1]) (fun _ _ => true))
        (seed 7 "invoice" 0) [[123, 125], [123, 125]]).map Handled.ending
      = [.acked, .acked] := by
  decide

/-- C10, amended: for every inbound payload that fails to decode, the handler
panics, which terminates the process. It does so before `readCounterValue`,
the publish and the acknowledgment: the store is unchanged and nothing is
published. Messages delivered after it are not handled. -/
theorem handler_decode_failure (unmarshal : Bytes → Option DocumentPreparedEvent)
    (marshal : InvoiceCreatedEvent → Option Bytes) (publish : String → Bytes → Bool)
    (col : Counter) (data : Bytes)
    (rest : List Bytes) (h : unmarshal data = none) :
    handler unmarshal marshal publish col data
        = { ending := .panicked, col := col, published := [] } ∧
      consume (handler unmarshal marshal publish) col (data :: rest)
        = [{ ending := .panicked, col := col, published := [] }] := by
  have h1 : handler unmarshal marshal publish col data
      = { ending := .panicked, col := col, published := [] } := by
    simp [handler, h]
  exact ⟨h1, by simp [consume, h1]⟩

theorem handler_decode_failure_witness :
    (fun data : Bytes =>
        if data = [] then none else some (⟨"docA", "invoice", 100, "EUR"⟩ : DocumentPreparedEvent))
        [] = none ∧
      handler (fun data => if data = [] then none else some ⟨"docA", "invoice", 100, "EUR"⟩)
          (fun _ => some [1]) (fun _ _ => true) (seed 7 "invoice" 0) []
        = { ending := .panicked, col := seed 7 "invoice" 0, published := [] } :=
  ⟨rfl,
   (handler_decode_failure
      (fun data => if data = [] then none else some ⟨"docA", "invoice", 100, "EUR"⟩)
      (fun _ => some [1]) (fun _ _ => true) (seed 7 "invoice" 0) [] [[123, 125]] rfl).1⟩

end Numbering
